import Mathlib

/-!
Shallow embedding of the reviewer-assignment engine of `pr-manager-avito`
(`internal/repository/repository.go`, `internal/handlers/handlers.go`, and the
schema in `migrations/20251114141649_0001_create_tables.sql`).

The relational database is modelled as lists of rows, one list per table,
mirroring the columns the Go code reads or writes.  SQL timestamps (`NOW()`)
are modelled by an explicit `now : Nat` argument.  Postgres `BIGSERIAL`
columns are modelled by per-table `next_*` counters.  Each mutating
repository method runs inside a transaction with `defer tx.Rollback`, so the
embedding returns the original state on every error path and the updated
state only at the commit point.
-/

deriving instance DecidableEq for Except

/-- Error kinds of the repository layer (`ErrNotFound`, `ErrAlreadyMerged`,
`ErrAlreadyExists`, `ErrInvalidInput`); `storage` stands for any wrapped
`fmt.Errorf` database failure. -/
inductive RepoError where
  | notFound
  | alreadyMerged
  | alreadyExists
  | invalidInput
  | storage (msg : String)
deriving Repr, DecidableEq

/-- Row of the `users` table (columns the code touches: `id`, `external_id`,
`name`, `is_active`, `updated_at`). -/
structure UserRow where
  id : Int
  external_id : String
  name : String
  is_active : Bool
  updated_at : Nat
deriving Repr, DecidableEq

/-- Row of the `teams` table. -/
structure TeamRow where
  id : Int
  name : String
deriving Repr, DecidableEq

/-- Row of the `team_users` join table. -/
structure TeamUserRow where
  team_id : Int
  user_id : Int
deriving Repr, DecidableEq

/-- Row of the `pull_requests` table. -/
structure PRRow where
  id : Int
  external_id : String
  title : String
  author_id : Int
  status : String
  merged_at : Option Nat
  created_at : Nat
deriving Repr, DecidableEq

/-- Row of the `pr_reviewers` ledger. -/
structure PRReviewerRow where
  pr_id : Int
  reviewer_id : Int
deriving Repr, DecidableEq

/-- The database state: one list of rows per table plus the `BIGSERIAL`
sequences. -/
structure DB where
  users : List UserRow
  teams : List TeamRow
  team_users : List TeamUserRow
  pull_requests : List PRRow
  pr_reviewers : List PRReviewerRow
  next_user_id : Int
  next_team_id : Int
  next_pr_id : Int
deriving Repr, DecidableEq

/-- `models.StatusOpen`. -/
def StatusOpen : String := "OPEN"

/-- `models.StatusMerged`. -/
def StatusMerged : String := "MERGED"

/-- The `models.PullRequest` response record. -/
structure PullRequestM where
  pull_request_id : String
  pull_request_name : String
  author_id : String
  status : String
  assigned_reviewers : List String
  created_at : Option Nat
  merged_at : Option Nat
deriving Repr, DecidableEq

/-- The `models.PullRequestShort` response record. -/
structure PullRequestShortM where
  pull_request_id : String
  pull_request_name : String
  author_id : String
  status : String
deriving Repr, DecidableEq

/-- The `models.TeamMember` record. -/
structure TeamMemberM where
  user_id : String
  username : String
  is_active : Bool
deriving Repr, DecidableEq

/-- The `models.Team` record. -/
structure TeamM where
  team_name : String
  members : List TeamMemberM
deriving Repr, DecidableEq

/-- Decimal digit value of a character, or `none`. -/
def digitVal (c : Char) : Option Nat :=
  if '0' ≤ c ∧ c ≤ '9' then some (c.toNat - '0'.toNat) else none

/-- Accumulating decimal parser over a character list. -/
def parseDigitsAux : List Char → Nat → Option Nat
  | [], acc => some acc
  | c :: cs, acc =>
    match digitVal c with
    | none => none
    | some d => parseDigitsAux cs (acc * 10 + d)

/-- Parse a non-empty run of decimal digits. -/
def parseDecimal (ds : List Char) : Option Nat :=
  if ds.isEmpty then none else parseDigitsAux ds 0

/-- Model of Go `strconv.ParseInt(s, 10, 64)`: optional sign, a non-empty
run of decimal digits, and a signed 64-bit range check (Go reports an
`ErrRange` failure on overflow, which the repository code treats like any
other parse failure). -/
def parseInt64 (s : String) : Option Int :=
  let signed : Option Int :=
    match s.data with
    | '-' :: ds => (parseDecimal ds).map (fun n => -(n : Int))
    | '+' :: ds => (parseDecimal ds).map (fun n => (n : Int))
    | ds => (parseDecimal ds).map (fun n => (n : Int))
  match signed with
  | none => none
  | some i => if -(2 ^ 63) ≤ i ∧ i < 2 ^ 63 then some i else none

/-- Model of Go `strconv.FormatInt(i, 10)`. -/
def formatInt64 (i : Int) : String := toString i

/-- `UpdateUserStatus` (repository.go): `UPDATE users SET is_active = $1,
updated_at = NOW() WHERE external_id = $2`; `ErrNotFound` when no row is
affected. -/
def updateUserStatus (st : DB) (userID : String) (isActive : Bool) (now : Nat) :
    Except RepoError DB :=
  if st.users.any (fun u => u.external_id == userID) then
    .ok { st with users := st.users.map (fun u =>
      if u.external_id == userID then
        { u with is_active := isActive, updated_at := now }
      else u) }
  else
    .error .notFound

/-- `getPRReviewers` (repository.go): `SELECT reviewer_id FROM pr_reviewers
WHERE pr_id = $1`, each id rendered with `strconv.FormatInt`. -/
def getPRReviewers (st : DB) (prID : Int) : List String :=
  (st.pr_reviewers.filter (fun rv => rv.pr_id == prID)).map
    (fun rv => formatInt64 rv.reviewer_id)

/-- `GetPR` (repository.go): look the PR up by `external_id`, then fetch its
reviewers. -/
def getPR (st : DB) (pullRequestID : String) : Except RepoError PullRequestM :=
  match st.pull_requests.find? (fun p => p.external_id == pullRequestID) with
  | none => .error .notFound
  | some p =>
    .ok ⟨pullRequestID, p.title, formatInt64 p.author_id, p.status,
         getPRReviewers st p.id, some p.created_at, p.merged_at⟩

/-- `MergePR` (repository.go): `UPDATE pull_requests SET status = 'MERGED',
merged_at = NOW() WHERE external_id = $2 RETURNING ...`.  The `WHERE` clause
does not test the current status, so the update matches whenever the PR
exists — also when it is already `MERGED`.  Only when no row matched does the
code fall back to `GetPR` to check for an already-merged PR; on any error the
transaction-less update leaves the state unchanged. -/
def mergePR (st : DB) (pullRequestID : String) (now : Nat) :
    (Except RepoError PullRequestM) × DB :=
  match st.pull_requests.find? (fun p => p.external_id == pullRequestID) with
  | none =>
    -- pgx.ErrNoRows branch: re-read via GetPR
    match getPR st pullRequestID with
    | .error _ => (.error .notFound, st)
    | .ok merged =>
      if merged.status == StatusMerged then (.ok merged, st)
      else (.error .notFound, st)
  | some p =>
    let st' := { st with pull_requests := st.pull_requests.map (fun q =>
      if q.external_id == pullRequestID then
        { q with status := StatusMerged, merged_at := some now }
      else q) }
    (.ok ⟨pullRequestID, p.title, formatInt64 p.author_id, StatusMerged,
          getPRReviewers st p.id, some p.created_at, some now⟩, st')

/-- Candidate pool query shared by `CreatePR` and `ReassignReviewerAuto`
(repository.go): `SELECT tu.user_id FROM team_users tu JOIN users u ON
tu.user_id = u.id WHERE tu.team_id = $1 AND u.is_active = true AND
tu.user_id != ...` — `excluded` is `[author]` for creation and
`author :: currentReviewers` for reassignment (`!= $2 AND != ALL($3)`). -/
def reviewerCandidates (st : DB) (teamID : Int) (excluded : List Int) : List Int :=
  (st.team_users.filter
      (fun tu => tu.team_id == teamID && !(excluded.contains tu.user_id))).flatMap
    (fun tu =>
      (st.users.filter (fun u => u.id == tu.user_id && u.is_active)).map
        (fun _ => tu.user_id))

/-- `ReassignReviewerAuto` (repository.go).  The random pick
`ORDER BY RANDOM() LIMIT 1` is modelled by applying the caller-supplied
`shuffle` (a permutation of its input in the theorems) and taking the head.
Steps, in source order: resolve the old reviewer's internal id by
`external_id` (`ErrNotFound` if the user is absent); load the PR by
`external_id` (`ErrNotFound` if absent); `ErrAlreadyMerged` on a merged PR;
`ErrNotFound` if the `(pr, old reviewer)` pair is not in `pr_reviewers`;
look up the author's team (`LIMIT 1`; a missing row is only wrapped as a
storage error here); collect current reviewers; pick a candidate
(`ErrNotFound` when the pool is empty); delete the old pair, insert the new
one, commit. -/
def reassignReviewerAuto (shuffle : List Int → List Int) (st : DB)
    (pullRequestID oldReviewerID : String) :
    (Except RepoError String) × DB :=
  match st.users.find? (fun u => u.external_id == oldReviewerID) with
  | none => (.error .notFound, st)
  | some oldU =>
    match st.pull_requests.find? (fun p => p.external_id == pullRequestID) with
    | none => (.error .notFound, st)
    | some p =>
      if p.status == StatusMerged then (.error .alreadyMerged, st)
      else if !(st.pr_reviewers.any
          (fun rv => rv.pr_id == p.id && rv.reviewer_id == oldU.id)) then
        (.error .notFound, st)
      else
        match (st.team_users.filter (fun tu => tu.user_id == p.author_id)).head? with
        | none => (.error (.storage "failed to get author team"), st)
        | some tu =>
          let currentReviewers :=
            (st.pr_reviewers.filter (fun rv => rv.pr_id == p.id)).map
              (fun rv => rv.reviewer_id)
          let candidates :=
            reviewerCandidates st tu.team_id (p.author_id :: currentReviewers)
          match (shuffle candidates).head? with
          | none => (.error .notFound, st)
          | some newReviewerID =>
            (.ok (formatInt64 newReviewerID),
             { st with pr_reviewers :=
                (st.pr_reviewers.filter (fun rv =>
                  !(rv.pr_id == p.id && rv.reviewer_id == oldU.id))) ++
                [⟨p.id, newReviewerID⟩] })

/-- Outcome of `POST /pullRequest/reassign` as classified by the handler
(handlers.go `ReassignReviewer`): success, `NOT_FOUND` (PR), `NOT_ASSIGNED`,
`NO_CANDIDATE`, `PR_MERGED`, or a generic 500. -/
inductive ReassignApiResult where
  | ok (newReviewer : String)
  | prNotFound
  | notAssigned
  | noCandidate
  | prMerged
  | serverError
deriving Repr, DecidableEq

/-- Handler `ReassignReviewer` (handlers.go): calls `ReassignReviewerAuto`;
on `ErrNotFound` it disambiguates with a secondary `GetPR` read — if the PR
is absent it reports `NOT_FOUND`, otherwise it scans the PR's
`AssignedReviewers` for the request's `old_user_id` and reports
`NOT_ASSIGNED` when it is missing, else `NO_CANDIDATE`.  `ErrAlreadyMerged`
maps to `PR_MERGED`; any other error becomes a 500.  On success the handler
re-reads the PR and reports the new reviewer id. -/
def handleReassignReviewer (shuffle : List Int → List Int) (st : DB)
    (pullRequestID oldUserID : String) : ReassignApiResult × DB :=
  match reassignReviewerAuto shuffle st pullRequestID oldUserID with
  | (.ok newID, st') =>
    match getPR st' pullRequestID with
    | .error _ => (.serverError, st')
    | .ok _ => (.ok newID, st')
  | (.error .notFound, st') =>
    match getPR st' pullRequestID with
    | .error _ => (.prNotFound, st')
    | .ok pr =>
      if pr.assigned_reviewers.contains oldUserID then (.noCandidate, st')
      else (.notAssigned, st')
  | (.error .alreadyMerged, st') => (.prMerged, st')
  | (.error _, st') => (.serverError, st')

/-- Concrete database: team `infra` (id 1) with users alice (id 1, external
`u-alice`, active), bob (id 2, external `u-bob`, active); one open PR `pr-1`
authored by alice with bob assigned as reviewer. -/
def dbBase : DB :=
  { users :=
      [⟨1, "u-alice", "Alice", true, 0⟩, ⟨2, "u-bob", "Bob", true, 0⟩],
    teams := [⟨1, "infra"⟩],
    team_users := [⟨1, 1⟩, ⟨1, 2⟩],
    pull_requests := [⟨1, "pr-1", "Fix", 1, StatusOpen, none, 5⟩],
    pr_reviewers := [⟨1, 2⟩],
    next_user_id := 3,
    next_team_id := 2,
    next_pr_id := 2 }

/-- `CreatePR` (repository.go): parse `authorID` with
`strconv.ParseInt(authorID, 10, 64)` (`ErrInvalidInput` on failure); inside
a transaction, run the optimistic existence pre-check on the PR external id
(`ErrAlreadyExists`); resolve the author's team (`SELECT team_id FROM
team_users WHERE user_id = $1 LIMIT 1`, `ErrNotFound` when absent); draw up
to two reviewer candidates (`ORDER BY RANDOM() LIMIT 2`, modelled as
`take 2` of the caller-supplied shuffle); insert the PR row — the
`UNIQUE (external_id)` constraint is checked against the committed rows
plus `concurrent`, the rows committed by other transactions between the
pre-check and the insert, and a violation (`pgconn` code `23505`) is
translated to `ErrAlreadyExists`; insert the reviewer pairs; commit. -/
def createPR (shuffle : List Int → List Int) (st : DB)
    (pullRequestID pullRequestName authorID : String)
    (concurrent : List PRRow) (now : Nat) :
    (Except RepoError PullRequestM) × DB :=
  match parseInt64 authorID with
  | none => (.error .invalidInput, st)
  | some aID =>
    if st.pull_requests.any (fun p => p.external_id == pullRequestID) then
      (.error .alreadyExists, st)
    else
      match (st.team_users.filter (fun tu => tu.user_id == aID)).head? with
      | none => (.error .notFound, st)
      | some tu =>
        let reviewerIDs := (shuffle (reviewerCandidates st tu.team_id [aID])).take 2
        if (st.pull_requests ++ concurrent).any
            (fun p => p.external_id == pullRequestID) then
          (.error .alreadyExists, st)
        else
          (.ok ⟨pullRequestID, pullRequestName, authorID, StatusOpen,
                reviewerIDs.map formatInt64, some now, none⟩,
           { st with
              pull_requests := st.pull_requests ++
                [⟨st.next_pr_id, pullRequestID, pullRequestName, aID,
                  StatusOpen, none, now⟩],
              pr_reviewers := st.pr_reviewers ++
                reviewerIDs.map (fun r => (⟨st.next_pr_id, r⟩ : PRReviewerRow)),
              next_pr_id := st.next_pr_id + 1 })

/-- Bulk user upsert of `CreateTeam` (repository.go): `INSERT INTO users
(external_id, name, is_active) SELECT * FROM unnest(...) ON CONFLICT
(external_id) DO UPDATE SET name = excluded.name, is_active =
excluded.is_active, updated_at = NOW() RETURNING id, external_id`, processed
row by row; returns the updated state together with the returned
`(external_id, id)` pairs. -/
def upsertUsers (now : Nat) : DB → List TeamMemberM → DB × List (String × Int)
  | db, [] => (db, [])
  | db, m :: ms =>
    match db.users.find? (fun u => u.external_id == m.user_id) with
    | some u =>
      let db1 := { db with users := db.users.map (fun v =>
        if v.external_id == m.user_id then
          { v with name := m.username, is_active := m.is_active, updated_at := now }
        else v) }
      let r := upsertUsers now db1 ms
      (r.1, (m.user_id, u.id) :: r.2)
    | none =>
      let db1 := { db with
        users := db.users ++
          [⟨db.next_user_id, m.user_id, m.username, m.is_active, now⟩],
        next_user_id := db.next_user_id + 1 }
      let r := upsertUsers now db1 ms
      (r.1, (m.user_id, db.next_user_id) :: r.2)

/-- `CreateTeam` (repository.go): upsert the team row by name, bulk-upsert
the member users (Postgres rejects a single `ON CONFLICT DO UPDATE`
statement whose rows repeat a conflict target, so a roster with duplicate
member external ids fails as a storage error and rolls back), delete the
team's old `team_users` rows, `CopyFrom` the new `(team_id, user_id)`
pairs built from the `RETURNING` map, commit, and return the input
`teamData` unchanged. -/
def createTeam (st : DB) (teamData : TeamM) (now : Nat) :
    (Except RepoError TeamM) × DB :=
  let upT : Int × DB :=
    match st.teams.find? (fun t => t.name == teamData.team_name) with
    | some t => (t.id, st)
    | none =>
      (st.next_team_id,
       { st with teams := st.teams ++ [⟨st.next_team_id, teamData.team_name⟩],
                 next_team_id := st.next_team_id + 1 })
  let teamID := upT.1
  if (teamData.members.map (fun m => m.user_id)).Nodup then
    let r := upsertUsers now upT.2 teamData.members
    let newMembers := teamData.members.filterMap (fun m =>
      (r.2.find? (fun q => q.1 == m.user_id)).map
        (fun q => (⟨teamID, q.2⟩ : TeamUserRow)))
    (.ok teamData,
     { r.1 with team_users :=
        (r.1.team_users.filter (fun v => !(v.team_id == teamID))) ++ newMembers })
  else
    (.error (.storage "ON CONFLICT DO UPDATE cannot affect row a second time"), st)

/-- `GetTeam` (repository.go): find the team id by name (`ErrNotFound`),
then `SELECT u.external_id, u.name, u.is_active FROM users u JOIN team_users
tu ON u.id = tu.user_id WHERE tu.team_id = $1 ORDER BY u.name`. -/
def getTeam (st : DB) (teamName : String) : Except RepoError TeamM :=
  match st.teams.find? (fun t => t.name == teamName) with
  | none => .error .notFound
  | some t =>
    let joined :=
      (st.team_users.filter (fun tu => tu.team_id == t.id)).flatMap
        (fun tu => st.users.filter (fun u => u.id == tu.user_id))
    .ok ⟨teamName,
         (joined.insertionSort (fun a b => a.name ≤ b.name)).map
           (fun u => (⟨u.external_id, u.name, u.is_active⟩ : TeamMemberM))⟩

/-- `GetPRsByReviewer` (repository.go): parse the caller-supplied id with
`strconv.ParseInt` (`ErrInvalidInput` on failure), then run `SELECT
DISTINCT pr.external_id, pr.title, pr.author_id, pr.status FROM
pull_requests pr JOIN pr_reviewers prr ON pr.id = prr.pr_id WHERE
prr.reviewer_id = $1 ORDER BY pr.created_at DESC`.  Postgres rejects this
statement outright — for `SELECT DISTINCT`, `ORDER BY` expressions must
appear in the select list, and `pr.created_at` does not (error 42P10) — so
the query step always fails, the error is wrapped by `fmt.Errorf` into a
generic storage failure, and no rows are ever returned. -/
def getPRsByReviewer (_st : DB) (reviewerID : String) :
    Except RepoError (List PullRequestShortM) :=
  match parseInt64 reviewerID with
  | none => .error .invalidInput
  | some _ =>
    .error (.storage "failed to get PRs by reviewer: ORDER BY expressions must appear in select list")

/-- Invariant I1 of the spec: a pull request's author never holds a
reviewer slot on its own PR. -/
def authorNeverReviewer (st : DB) : Prop :=
  ∀ p ∈ st.pull_requests, ∀ rv ∈ st.pr_reviewers,
    rv.pr_id = p.id → rv.reviewer_id ≠ p.author_id

instance (st : DB) : Decidable (authorNeverReviewer st) := by
  unfold authorNeverReviewer
  infer_instance

/-- Concrete database where a reassignment succeeds: like `dbBase` but with
dave (id 3, external `u-dave`), an active unassigned teammate. -/
def dbReassignOk : DB :=
  { users := [⟨1, "u-alice", "Alice", true, 0⟩, ⟨2, "u-bob", "Bob", true, 0⟩,
              ⟨3, "u-dave", "Dave", true, 0⟩],
    teams := [⟨1, "infra"⟩],
    team_users := [⟨1, 1⟩, ⟨1, 2⟩, ⟨1, 3⟩],
    pull_requests := [⟨1, "pr-1", "Fix", 1, StatusOpen, none, 5⟩],
    pr_reviewers := [⟨1, 2⟩],
    next_user_id := 4,
    next_team_id := 2,
    next_pr_id := 2 }

/-- The state after reassigning `u-bob` away from `pr-1` in `dbReassignOk`. -/
def dbReassignOkAfter : DB :=
  { dbReassignOk with pr_reviewers := [⟨1, 3⟩] }

/-- An empty database, as after running the migrations. -/
def dbEmpty : DB :=
  { users := [], teams := [], team_users := [], pull_requests := [],
    pr_reviewers := [], next_user_id := 1, next_team_id := 1, next_pr_id := 1 }

/-- The state after deactivating `u-bob` at time 7 in `dbReassignOk`. -/
def dbStatusAfter : DB :=
  { dbReassignOk with users :=
      [⟨1, "u-alice", "Alice", true, 0⟩, ⟨2, "u-bob", "Bob", false, 7⟩,
       ⟨3, "u-dave", "Dave", true, 0⟩] }

/-- Well-formedness of a database state: the uniqueness and referential
constraints declared in `migrations/20251114141649_0001_create_tables.sql`
(primary keys, `UNIQUE` external ids and team names, the composite primary
keys of `team_users` and `pr_reviewers`, the `pr_reviewers.pr_id` foreign
key), plus freshness of the `BIGSERIAL` sequences. -/
def DB.WF (st : DB) : Prop :=
  (st.users.map (fun u => u.id)).Nodup ∧
  (st.users.map (fun u => u.external_id)).Nodup ∧
  (st.teams.map (fun t => t.id)).Nodup ∧
  (st.teams.map (fun t => t.name)).Nodup ∧
  st.team_users.Nodup ∧
  (st.pull_requests.map (fun p => p.id)).Nodup ∧
  (st.pull_requests.map (fun p => p.external_id)).Nodup ∧
  st.pr_reviewers.Nodup ∧
  (∀ u ∈ st.users, u.id < st.next_user_id) ∧
  (∀ t ∈ st.teams, t.id < st.next_team_id) ∧
  (∀ p ∈ st.pull_requests, p.id < st.next_pr_id) ∧
  (∀ rv ∈ st.pr_reviewers, ∃ p ∈ st.pull_requests, rv.pr_id = p.id)

instance (st : DB) : Decidable st.WF := by
  unfold DB.WF
  infer_instance

/-- Membership in the candidate pool implies: not excluded, a member of the
team, and an active user. -/
theorem mem_reviewerCandidates {st : DB} {teamID : Int} {excluded : List Int}
    {x : Int} (hx : x ∈ reviewerCandidates st teamID excluded) :
    x ∉ excluded ∧
    (∃ tu ∈ st.team_users, tu.team_id = teamID ∧ tu.user_id = x) ∧
    (∃ u ∈ st.users, u.id = x ∧ u.is_active) := by
  unfold reviewerCandidates at hx
  rw [List.mem_flatMap] at hx
  obtain ⟨tu, htu, hmap⟩ := hx
  rw [List.mem_filter] at htu
  obtain ⟨htumem, hcond⟩ := htu
  rw [List.mem_map] at hmap
  obtain ⟨u, hu, hux⟩ := hmap
  rw [List.mem_filter] at hu
  simp only [Bool.and_eq_true, beq_iff_eq, Bool.not_eq_true'] at hcond hu
  obtain ⟨hteam, hnotex⟩ := hcond
  refine ⟨?_, ⟨tu, htumem, hteam, hux⟩, ⟨u, hu.1, ?_, hu.2.2⟩⟩
  · intro hmem
    rw [← hux] at hmem
    rw [List.contains_eq_any_beq] at hnotex
    have : excluded.any (tu.user_id == ·) = true :=
      List.any_eq_true.mpr ⟨tu.user_id, hmem, by simp⟩
    rw [this] at hnotex
    cases hnotex
  · rw [hu.2.1, hux]

/-- C1: for every existing PR, Merge is idempotent — a second Merge call on
an already merged PR should return the record unchanged with the same merge
timestamp.  The code violates this: `MergePR`'s `UPDATE` carries no status
guard, so a second call at a later instant succeeds but re-stamps
`merged_at = NOW()`.  On `dbBase`, merging `pr-1` at time 10 yields
`merged_at = some 10`, and a second merge at time 20 yields
`merged_at = some 20 ≠ some 10`, even though the status stays `MERGED` and
the second call is not an error. -/
theorem mergePR_second_call_restamps_merged_at :
    (mergePR dbBase "pr-1" 10).1 =
      .ok ⟨"pr-1", "Fix", "1", StatusMerged, ["2"], some 5, some 10⟩ ∧
    (mergePR ((mergePR dbBase "pr-1" 10).2) "pr-1" 20).1 =
      .ok ⟨"pr-1", "Fix", "1", StatusMerged, ["2"], some 5, some 20⟩ ∧
    (some 20 : Option Nat) ≠ some 10 := by
  decide

/-- C2: the three reassignment failure kinds should be reported distinctly.
On `dbBase`, bob (internal id 2, external id `u-bob`) is assigned to `pr-1`
and the candidate pool (active teammates of the author excluding the author
and all assigned reviewers) is empty, so the failure kind is `NoCandidate`.
But the repository folds it into `ErrNotFound`, and the handler's
disambiguating read compares the external `old_user_id` against
`AssignedReviewers`, which holds internal ids rendered as strings (`["2"]`),
so `u-bob` is not found there and the call is misreported as
`NOT_ASSIGNED`.  The reviewer set is left unchanged. -/
theorem reassign_noCandidate_misreported_notAssigned :
    (⟨1, 2⟩ : PRReviewerRow) ∈ dbBase.pr_reviewers ∧
    dbBase.users.find? (fun u => u.external_id == "u-bob") =
      some ⟨2, "u-bob", "Bob", true, 0⟩ ∧
    reviewerCandidates dbBase 1 [1, 2] = [] ∧
    handleReassignReviewer id dbBase "pr-1" "u-bob" = (.notAssigned, dbBase) := by
  decide

/-- C3: postconditions of a successful reassignment. -/
theorem reassign_success_postconditions
    (shuffle : List Int → List Int) (hsh : ∀ l, (shuffle l).Perm l)
    (st : DB) (hwf : st.WF)
    (prExt oldExt newID : String) (st' : DB)
    (h : reassignReviewerAuto shuffle st prExt oldExt = (.ok newID, st')) :
    ∃ p oldU tu nInt,
      st.pull_requests.find? (fun q => q.external_id == prExt) = some p ∧
      st.users.find? (fun u => u.external_id == oldExt) = some oldU ∧
      (st.team_users.filter (fun v => v.user_id == p.author_id)).head? = some tu ∧
      newID = formatInt64 nInt ∧
      nInt ∈ reviewerCandidates st tu.team_id
        (p.author_id ::
          (st.pr_reviewers.filter (fun rv => rv.pr_id == p.id)).map
            (fun rv => rv.reviewer_id)) ∧
      (⟨p.id, oldU.id⟩ : PRReviewerRow) ∉ st'.pr_reviewers ∧
      (⟨p.id, nInt⟩ : PRReviewerRow) ∈ st'.pr_reviewers ∧
      (⟨p.id, nInt⟩ : PRReviewerRow) ∉ st.pr_reviewers ∧
      (st'.pr_reviewers.filter (fun rv => rv.pr_id == p.id)).length =
        (st.pr_reviewers.filter (fun rv => rv.pr_id == p.id)).length := by
  simp only [reassignReviewerAuto] at h
  split at h
  · exact Except.noConfusion (congrArg Prod.fst h)
  next oldU hfindOld =>
    split at h
    · exact Except.noConfusion (congrArg Prod.fst h)
    next p hfindPR =>
      split at h
      · exact Except.noConfusion (congrArg Prod.fst h)
      next hnotmerged =>
        split at h
        · exact Except.noConfusion (congrArg Prod.fst h)
        next hassigned =>
          split at h
          · exact Except.noConfusion (congrArg Prod.fst h)
          next tu hteam =>
            split at h
            · exact Except.noConfusion (congrArg Prod.fst h)
            next nInt hpick =>
              rw [Prod.mk.injEq] at h
              obtain ⟨hres, hstate⟩ := h
              injection hres with hres
              subst hstate
              obtain ⟨_, _, _, _, _, _, _, hrvnd, _, _, _, _⟩ := hwf
              -- the old reviewer is currently assigned
              have hany : st.pr_reviewers.any
                  (fun rv => rv.pr_id == p.id && rv.reviewer_id == oldU.id) = true := by
                revert hassigned
                cases st.pr_reviewers.any
                  (fun rv => rv.pr_id == p.id && rv.reviewer_id == oldU.id) <;> simp
              obtain ⟨rv, hrvmem, hrvp⟩ := List.any_eq_true.mp hany
              simp only [Bool.and_eq_true, beq_iff_eq] at hrvp
              have hrveq : rv = (⟨p.id, oldU.id⟩ : PRReviewerRow) := by
                cases rv; simp_all
              have holdmem : (⟨p.id, oldU.id⟩ : PRReviewerRow) ∈ st.pr_reviewers :=
                hrveq ▸ hrvmem
              have holdcur : oldU.id ∈
                  (st.pr_reviewers.filter (fun x => x.pr_id == p.id)).map
                    (fun x => x.reviewer_id) :=
                List.mem_map.mpr ⟨⟨p.id, oldU.id⟩,
                  List.mem_filter.mpr ⟨holdmem, by simp⟩, rfl⟩
              -- the pick came from the candidate pool
              have hmemcand : nInt ∈ reviewerCandidates st tu.team_id
                  (p.author_id ::
                    (st.pr_reviewers.filter (fun x => x.pr_id == p.id)).map
                      (fun x => x.reviewer_id)) := by
                have hm : nInt ∈ shuffle (reviewerCandidates st tu.team_id
                    (p.author_id ::
                      (st.pr_reviewers.filter (fun x => x.pr_id == p.id)).map
                        (fun x => x.reviewer_id))) :=
                  List.mem_of_mem_head? (by rw [Option.mem_def]; exact hpick)
                exact ((hsh _).mem_iff).mp hm
              have hexcl := (mem_reviewerCandidates hmemcand).1
              have hnotincur : nInt ∉
                  (st.pr_reviewers.filter (fun x => x.pr_id == p.id)).map
                    (fun x => x.reviewer_id) :=
                fun hxx => hexcl (List.mem_cons_of_mem _ hxx)
              have hne : nInt ≠ oldU.id := by
                intro hx
                exact hnotincur (hx ▸ holdcur)
              refine ⟨p, oldU, tu, nInt, hfindPR, hfindOld, hteam, hres.symm,
                hmemcand, ?_, ?_, ?_, ?_⟩
              · -- the old reviewer is gone afterwards
                intro hmem
                rcases List.mem_append.mp hmem with hl | hr
                · have := (List.mem_filter.mp hl).2
                  simp at this
                · have := List.mem_singleton.mp hr
                  rw [PRReviewerRow.mk.injEq] at this
                  exact hne this.2.symm
              · -- the new reviewer is present afterwards
                exact List.mem_append_right _ (List.mem_singleton.mpr rfl)
              · -- the new reviewer held no slot on this PR before
                intro hmem
                exact hnotincur
                  (List.mem_map.mpr ⟨⟨p.id, nInt⟩,
                    List.mem_filter.mpr ⟨hmem, by simp⟩, rfl⟩)
              · -- the reviewer set of this PR keeps its size
                rw [List.filter_append, List.filter_filter]
                have hsingle :
                    List.filter (fun rv => rv.pr_id == p.id)
                      [(⟨p.id, nInt⟩ : PRReviewerRow)] = [⟨p.id, nInt⟩] := by simp
                rw [hsingle]
                have hcongr :
                    List.filter (fun x =>
                        (x.pr_id == p.id) &&
                          !(x.pr_id == p.id && x.reviewer_id == oldU.id)) st.pr_reviewers =
                      List.filter (fun x =>
                        (x != (⟨p.id, oldU.id⟩ : PRReviewerRow)) &&
                          (x.pr_id == p.id)) st.pr_reviewers := by
                  apply List.filter_congr
                  intro x _
                  cases x with
                  | mk a b =>
                    by_cases ha : a = p.id
                    · subst ha
                      by_cases hb : b = oldU.id
                      · subst hb; simp [bne]
                      · simp [bne, hb]
                    · have hf : (a == p.id) = false := by simp [ha]
                      rw [hf]
                      simp
                rw [hcongr, ← List.filter_filter]
                -- now the first summand is `(filter pid A).filter (x != oldpair)`
                have hBnodup :
                    (st.pr_reviewers.filter (fun x => x.pr_id == p.id)).Nodup :=
                  hrvnd.filter _
                have holdB : (⟨p.id, oldU.id⟩ : PRReviewerRow) ∈
                    st.pr_reviewers.filter (fun x => x.pr_id == p.id) :=
                  List.mem_filter.mpr ⟨holdmem, by simp⟩
                have hperm := List.perm_cons_erase holdB
                have herase := hBnodup.erase_eq_filter (⟨p.id, oldU.id⟩ : PRReviewerRow)
                rw [← herase, List.length_append, List.length_singleton]
                have := hperm.length_eq
                simp only [List.length_cons] at this
                omega

/-- Witness for C3: on `dbReassignOk`, reassigning `u-bob` (internal 2) away
from `pr-1` succeeds with dave (internal 3) as replacement. -/
theorem reassign_success_postconditions_witness :
    ∃ p oldU tu nInt,
      dbReassignOk.pull_requests.find? (fun q => q.external_id == "pr-1") = some p ∧
      dbReassignOk.users.find? (fun u => u.external_id == "u-bob") = some oldU ∧
      (dbReassignOk.team_users.filter (fun v => v.user_id == p.author_id)).head? =
        some tu ∧
      "3" = formatInt64 nInt ∧
      nInt ∈ reviewerCandidates dbReassignOk tu.team_id
        (p.author_id ::
          (dbReassignOk.pr_reviewers.filter (fun rv => rv.pr_id == p.id)).map
            (fun rv => rv.reviewer_id)) ∧
      (⟨p.id, oldU.id⟩ : PRReviewerRow) ∉ dbReassignOkAfter.pr_reviewers ∧
      (⟨p.id, nInt⟩ : PRReviewerRow) ∈ dbReassignOkAfter.pr_reviewers ∧
      (⟨p.id, nInt⟩ : PRReviewerRow) ∉ dbReassignOk.pr_reviewers ∧
      (dbReassignOkAfter.pr_reviewers.filter (fun rv => rv.pr_id == p.id)).length =
        (dbReassignOk.pr_reviewers.filter (fun rv => rv.pr_id == p.id)).length :=
  reassign_success_postconditions id (fun l => List.Perm.refl l) dbReassignOk
    (by decide) "pr-1" "u-bob" "3" dbReassignOkAfter (by decide)

/-- C6: `GetPRsByReviewer` (serving `GET /users/getReview`) should return
the PRs on which the given user — identified at the interface by the
external user id — currently holds a reviewer assignment, newest first.
The code cannot do this for any input: on `dbBase`, bob (external id
`u-bob`, internal id 2) is assigned to `pr-1`, yet the call with his
external id fails with `ErrInvalidInput` because the code parses the
caller's id as the internal numeric key; and for every id that does parse,
the `SELECT DISTINCT ... ORDER BY pr.created_at` query is rejected by
Postgres, so every call on every state returns an error and the endpoint
never produces a PR list. -/
theorem getPRsByReviewer_never_returns_rows :
    dbBase.users.find? (fun u => u.external_id == "u-bob") =
      some ⟨2, "u-bob", "Bob", true, 0⟩ ∧
    (⟨1, 2⟩ : PRReviewerRow) ∈ dbBase.pr_reviewers ∧
    getPRsByReviewer dbBase "u-bob" = .error .invalidInput ∧
    (∀ (st : DB) (s : String), ∃ e, getPRsByReviewer st s = .error e) := by
  refine ⟨by decide, by decide, by decide, ?_⟩
  intro st s
  cases hp : parseInt64 s with
  | none => exact ⟨.invalidInput, by simp [getPRsByReviewer, hp]⟩
  | some rID =>
    exact ⟨.storage "failed to get PRs by reviewer: ORDER BY expressions must appear in select list",
      by simp [getPRsByReviewer, hp]⟩

/-- C7: every identifier crossing the public interface should be an
external identifier.  The code violates this: `CreatePR` feeds its
`authorId` through `strconv.ParseInt` and matches it against the internal
`users.id`, so the existing author `u-alice` (an active team member in
`dbReassignOk`) cannot create a PR — the call fails with
`ErrInvalidInput`; and a successful reassignment reports the replacement
as the internal id string `"3"`, although that user's external id is
`u-dave` and no user has `"3"` as external id. -/
theorem createPR_and_reassign_use_internal_ids :
    dbReassignOk.users.find? (fun u => u.external_id == "u-alice") =
      some ⟨1, "u-alice", "Alice", true, 0⟩ ∧
    (⟨1, 1⟩ : TeamUserRow) ∈ dbReassignOk.team_users ∧
    createPR id dbReassignOk "pr-2" "Feat" "u-alice" [] 9 =
      (.error .invalidInput, dbReassignOk) ∧
    (reassignReviewerAuto id dbReassignOk "pr-1" "u-bob").1 = .ok "3" ∧
    dbReassignOk.users.find? (fun u => u.external_id == "3") = none ∧
    dbReassignOk.users.find? (fun u => u.id == 3) =
      some ⟨3, "u-dave", "Dave", true, 0⟩ := by
  decide

/-- The user upsert touches only the `users` table and its sequence. -/
theorem upsertUsers_frame (now : Nat) (ms : List TeamMemberM) :
    ∀ db : DB, ((upsertUsers now db ms).1).teams = db.teams ∧
      ((upsertUsers now db ms).1).team_users = db.team_users ∧
      ((upsertUsers now db ms).1).pull_requests = db.pull_requests ∧
      ((upsertUsers now db ms).1).pr_reviewers = db.pr_reviewers := by
  induction ms with
  | nil => intro db; exact ⟨rfl, rfl, rfl, rfl⟩
  | cons m ms ih =>
    intro db
    cases hf : db.users.find? (fun u => u.external_id == m.user_id) with
    | some u =>
      simp only [upsertUsers, hf]
      exact ih _
    | none =>
      simp only [upsertUsers, hf]
      exact ih _

/-- The team upsert never touches `pull_requests` or `pr_reviewers`. -/
theorem createTeam_frame (st : DB) (td : TeamM) (now : Nat) :
    ((createTeam st td now).2).pull_requests = st.pull_requests ∧
    ((createTeam st td now).2).pr_reviewers = st.pr_reviewers := by
  unfold createTeam
  cases hft : st.teams.find? (fun t => t.name == td.team_name) with
  | some t =>
    simp only [hft]
    split
    · have hf := upsertUsers_frame now td.members st
      exact ⟨hf.2.2.1, hf.2.2.2⟩
    · exact ⟨rfl, rfl⟩
  | none =>
    simp only [hft]
    split
    · have hf := upsertUsers_frame now td.members
        { st with teams := st.teams ++ [⟨st.next_team_id, td.team_name⟩],
                  next_team_id := st.next_team_id + 1 }
      exact ⟨hf.2.2.1, hf.2.2.2⟩
    · exact ⟨rfl, rfl⟩

/-- C4: invariant I1 — a PR's author never holds a reviewer slot on its own
PR — is preserved by every operation of the engine: PR creation draws
reviewers from a pool that excludes the author, reassignment draws the
replacement from a pool that excludes the author, and merge, user-status
update and team upsert leave the assignment ledger and the PR authors
untouched. -/
theorem authorNeverReviewer_preserved
    (shuffle : List Int → List Int) (hsh : ∀ l, (shuffle l).Perm l)
    (st : DB) (hwf : st.WF) (hinv : authorNeverReviewer st) :
    (∀ prE title author concurrent now r st',
        createPR shuffle st prE title author concurrent now = (r, st') →
        authorNeverReviewer st') ∧
    (∀ prE oldE r st',
        reassignReviewerAuto shuffle st prE oldE = (r, st') →
        authorNeverReviewer st') ∧
    (∀ prE now r st', mergePR st prE now = (r, st') → authorNeverReviewer st') ∧
    (∀ uid b now st',
        updateUserStatus st uid b now = .ok st' → authorNeverReviewer st') ∧
    (∀ td now r st', createTeam st td now = (r, st') → authorNeverReviewer st') := by
  obtain ⟨_, _, _, _, _, hprid, _, _, _, _, hprfresh, hfk⟩ := hwf
  refine ⟨?_, ?_, ?_, ?_, ?_⟩
  · -- createPR
    intro prE title author concurrent now r st' h
    simp only [createPR] at h
    split at h
    · exact (show st = st' from (Prod.ext_iff.mp h).2) ▸ hinv
    next aID hparse =>
      split at h
      · exact (show st = st' from (Prod.ext_iff.mp h).2) ▸ hinv
      · split at h
        · exact (show st = st' from (Prod.ext_iff.mp h).2) ▸ hinv
        next tu hteam =>
          split at h
          · exact (show st = st' from (Prod.ext_iff.mp h).2) ▸ hinv
          next hnodup2 =>
            have hst := (Prod.ext_iff.mp h).2
            subst hst
            intro p hp rv hrv heq
            have hp' : p ∈ st.pull_requests ++
                [⟨st.next_pr_id, prE, title, aID, StatusOpen, none, now⟩] := hp
            have hrv' : rv ∈ st.pr_reviewers ++
                ((shuffle (reviewerCandidates st tu.team_id [aID])).take 2).map
                  (fun x => (⟨st.next_pr_id, x⟩ : PRReviewerRow)) := hrv
            rcases List.mem_append.mp hp' with hpo | hpn
            · rcases List.mem_append.mp hrv' with hro | hrn
              · exact hinv p hpo rv hro heq
              · obtain ⟨x, hx, rfl⟩ := List.mem_map.mp hrn
                have := hprfresh p hpo
                simp only at heq
                omega
            · have hpeq := List.mem_singleton.mp hpn
              subst hpeq
              rcases List.mem_append.mp hrv' with hro | hrn
              · obtain ⟨q, hq, hqid⟩ := hfk rv hro
                have := hprfresh q hq
                simp only at heq
                omega
              · obtain ⟨x, hx, rfl⟩ := List.mem_map.mp hrn
                have hxc : x ∈ reviewerCandidates st tu.team_id [aID] :=
                  ((hsh _).mem_iff).mp (List.mem_of_mem_take hx)
                have hnot := (mem_reviewerCandidates hxc).1
                simp only
                intro hxeq
                exact hnot (hxeq ▸ List.mem_singleton.mpr rfl)
  · -- reassignReviewerAuto
    intro prE oldE r st' h
    simp only [reassignReviewerAuto] at h
    split at h
    · exact (show st = st' from (Prod.ext_iff.mp h).2) ▸ hinv
    next oldU hfindOld =>
      split at h
      · exact (show st = st' from (Prod.ext_iff.mp h).2) ▸ hinv
      next p0 hfindPR =>
        split at h
        · exact (show st = st' from (Prod.ext_iff.mp h).2) ▸ hinv
        · split at h
          · exact (show st = st' from (Prod.ext_iff.mp h).2) ▸ hinv
          · split at h
            · exact (show st = st' from (Prod.ext_iff.mp h).2) ▸ hinv
            next tu hteam =>
              split at h
              · exact (show st = st' from (Prod.ext_iff.mp h).2) ▸ hinv
              next nInt hpick =>
                have hst := (Prod.ext_iff.mp h).2
                subst hst
                intro p hp rv hrv heq
                have hp' : p ∈ st.pull_requests := hp
                have hrv' : rv ∈ (st.pr_reviewers.filter (fun v =>
                    !(v.pr_id == p0.id && v.reviewer_id == oldU.id))) ++
                    [⟨p0.id, nInt⟩] := hrv
                rcases List.mem_append.mp hrv' with hro | hrn
                · exact hinv p hp' rv (List.mem_filter.mp hro).1 heq
                · have hrveq := List.mem_singleton.mp hrn
                  subst hrveq
                  have hmemc : nInt ∈ reviewerCandidates st tu.team_id
                      (p0.author_id ::
                        (st.pr_reviewers.filter (fun v => v.pr_id == p0.id)).map
                          (fun v => v.reviewer_id)) :=
                    ((hsh _).mem_iff).mp
                      (List.mem_of_mem_head? (by rw [Option.mem_def]; exact hpick))
                  have hnot := (mem_reviewerCandidates hmemc).1
                  have hp0 : p0 ∈ st.pull_requests :=
                    List.mem_of_find?_eq_some hfindPR
                  have hpp0 : p0 = p :=
                    List.inj_on_of_nodup_map hprid hp0 hp' heq
                  subst hpp0
                  simp only
                  intro hxeq
                  exact hnot (hxeq ▸ List.mem_cons_self _ _)
  · -- mergePR
    intro prE now r st' h
    simp only [mergePR] at h
    split at h
    · split at h
      · exact (show st = st' from (Prod.ext_iff.mp h).2) ▸ hinv
      · split at h
        · exact (show st = st' from (Prod.ext_iff.mp h).2) ▸ hinv
        · exact (show st = st' from (Prod.ext_iff.mp h).2) ▸ hinv
    next p0 hfindPR =>
      have hst := (Prod.ext_iff.mp h).2
      subst hst
      intro p hp rv hrv heq
      have hp' : p ∈ st.pull_requests.map (fun q =>
          if q.external_id == prE then
            { q with status := StatusMerged, merged_at := some now }
          else q) := hp
      obtain ⟨q, hq, hqe⟩ := List.mem_map.mp hp'
      subst hqe
      by_cases hc : (q.external_id == prE) = true
      · rw [if_pos hc] at heq ⊢
        exact hinv q hq rv hrv heq
      · rw [if_neg hc] at heq ⊢
        exact hinv q hq rv hrv heq
  · -- updateUserStatus
    intro uid b now st' h
    simp only [updateUserStatus] at h
    split at h
    · have hst := (Except.ok.injEq _ _).mp h
      subst hst
      intro p hp rv hrv heq
      exact hinv p hp rv hrv heq
    · exact Except.noConfusion h
  · -- createTeam
    intro td now r st' h
    have hst : (createTeam st td now).2 = st' := congrArg Prod.snd h
    intro p hp rv hrv heq
    rw [← hst] at hp hrv
    rw [(createTeam_frame st td now).1] at hp
    rw [(createTeam_frame st td now).2] at hrv
    exact hinv p hp rv hrv heq

/-- Witness for C4: the invariant holds after a concrete PR creation on
`dbReassignOk` (author alice, internal id 1, with two active teammates). -/
theorem authorNeverReviewer_preserved_witness :
    authorNeverReviewer (createPR id dbReassignOk "pr-2" "Feat" "1" [] 9).2 :=
  (authorNeverReviewer_preserved id (fun l => List.Perm.refl l) dbReassignOk
      (by decide) (by decide)).1 "pr-2" "Feat" "1" [] 9
    (createPR id dbReassignOk "pr-2" "Feat" "1" [] 9).1
    (createPR id dbReassignOk "pr-2" "Feat" "1" [] 9).2 rfl

/-- C5: `CreatePR` reports `AlreadyExists` exactly when a PR with the given
external id already exists.  (i) With a parseable author id, the optimistic
pre-check turns an existing id into `AlreadyExists` with the state
unchanged.  (ii) If the id is free at the pre-check but a concurrent
transaction has committed it by insert time, the `UNIQUE (external_id)`
violation (Postgres error 23505) is likewise translated to `AlreadyExists`,
not to a generic storage failure, with the state unchanged.  (iii)
`AlreadyExists` arises only from a duplicate id.  (iv) On any error no PR
row or assignment is persisted. -/
theorem createPR_alreadyExists_exactly_on_duplicate
    (shuffle : List Int → List Int) (st : DB)
    (prE title author : String) (concurrent : List PRRow) (now : Nat) :
    (∀ aID, parseInt64 author = some aID →
      st.pull_requests.any (fun p => p.external_id == prE) = true →
      createPR shuffle st prE title author concurrent now =
        (.error .alreadyExists, st)) ∧
    (∀ aID tu, parseInt64 author = some aID →
      st.pull_requests.any (fun p => p.external_id == prE) = false →
      (st.team_users.filter (fun v => v.user_id == aID)).head? = some tu →
      concurrent.any (fun p => p.external_id == prE) = true →
      createPR shuffle st prE title author concurrent now =
        (.error .alreadyExists, st)) ∧
    ((createPR shuffle st prE title author concurrent now).1 =
        .error .alreadyExists →
      (st.pull_requests ++ concurrent).any (fun p => p.external_id == prE) = true) ∧
    (∀ e st2, createPR shuffle st prE title author concurrent now =
        (.error e, st2) → st2 = st) := by
  refine ⟨?_, ?_, ?_, ?_⟩
  · intro aID hparse hany
    simp [createPR, hparse, hany]
  · intro aID tu hparse hany hteam hconc
    have happ : (st.pull_requests ++ concurrent).any
        (fun p => p.external_id == prE) = true := by
      rw [List.any_append, hany, hconc]
      rfl
    simp [createPR, hparse, hany, hteam, happ]
  · intro h
    simp only [createPR] at h
    split at h
    · exact absurd (Except.error.inj h) (by simp)
    · split at h
      next hany =>
        rw [List.any_append, hany]
        rfl
      · split at h
        · exact absurd (Except.error.inj h) (by simp)
        · split at h
          next happ => exact happ
          · exact Except.noConfusion h
  · intro e st2 h
    simp only [createPR] at h
    split at h
    · exact ((Prod.ext_iff.mp h).2).symm
    · split at h
      · exact ((Prod.ext_iff.mp h).2).symm
      · split at h
        · exact ((Prod.ext_iff.mp h).2).symm
        · split at h
          · exact ((Prod.ext_iff.mp h).2).symm
          · exact Except.noConfusion (congrArg Prod.fst h)

/-- Witness for C5: creating `pr-1` again on `dbBase` (author internal id
`1`) hits the optimistic pre-check and fails with `AlreadyExists`, leaving
the state unchanged. -/
theorem createPR_alreadyExists_witness :
    createPR id dbBase "pr-1" "Fix again" "1" [] 9 =
      (.error .alreadyExists, dbBase) :=
  (createPR_alreadyExists_exactly_on_duplicate id dbBase "pr-1" "Fix again"
      "1" [] 9).1 1 (by decide) (by decide)

/-- A list of length at most one has no duplicates. -/
theorem nodup_of_length_le_one {α : Type} {l : List α} (h : l.length ≤ 1) :
    l.Nodup := by
  match l with
  | [] => exact List.nodup_nil
  | [a] => exact List.nodup_singleton a
  | a :: b :: t => simp at h

/-- At most one element of a key-distinct list passes a key-equality
filter. -/
theorem length_filter_key_le_one {α β : Type} [DecidableEq β] (key : α → β)
    (p : α → Bool) (v : β) :
    ∀ l : List α, (l.map key).Nodup →
      (l.filter (fun x => key x == v && p x)).length ≤ 1 := by
  intro l
  induction l with
  | nil => intro _; simp
  | cons a l ih =>
    intro hnd
    rw [List.map_cons, List.nodup_cons] at hnd
    by_cases hc : (key a == v && p a) = true
    · rw [List.filter_cons, if_pos hc]
      simp only [Bool.and_eq_true, beq_iff_eq] at hc
      have hrest : l.filter (fun x => key x == v && p x) = [] := by
        rw [List.eq_nil_iff_forall_not_mem]
        intro x hx
        obtain ⟨hxl, hxc⟩ := List.mem_filter.mp hx
        simp only [Bool.and_eq_true, beq_iff_eq] at hxc
        apply hnd.1
        rw [hc.1, ← hxc.1]
        exact List.mem_map_of_mem key hxl
      rw [hrest]
      simp
    · rw [List.filter_cons, if_neg hc]
      exact ih hnd.2

/-- The reviewer-candidate pool never repeats a user: `team_users` has a
composite primary key, and each of its rows contributes at most one
distinct `users` row because `users.id` is a primary key. -/
theorem reviewerCandidates_nodup {st : DB} (hwf : st.WF) (teamID : Int)
    (excluded : List Int) : (reviewerCandidates st teamID excluded).Nodup := by
  obtain ⟨huid, _, _, _, htund, _, _, _, _, _, _, _⟩ := hwf
  unfold reviewerCandidates
  rw [List.nodup_flatMap]
  constructor
  · intro tu htu
    apply nodup_of_length_le_one
    rw [List.length_map]
    exact length_filter_key_le_one (fun u => u.id) (fun u => u.is_active)
      tu.user_id st.users huid
  · have hLnd : (st.team_users.filter
        (fun tu => tu.team_id == teamID &&
          !(excluded.contains tu.user_id))).Nodup := htund.filter _
    refine hLnd.imp_of_mem ?_
    intro a b ha hb hab
    intro x hxa hxb
    obtain ⟨u1, hu1, hxu1⟩ := List.mem_map.mp hxa
    obtain ⟨u2, hu2, hxu2⟩ := List.mem_map.mp hxb
    have hta : a.team_id = teamID := by
      have hcond := (List.mem_filter.mp ha).2
      simp only [Bool.and_eq_true, beq_iff_eq] at hcond
      exact hcond.1
    have htb : b.team_id = teamID := by
      have hcond := (List.mem_filter.mp hb).2
      simp only [Bool.and_eq_true, beq_iff_eq] at hcond
      exact hcond.1
    apply hab
    cases a
    cases b
    simp_all

/-- C8: with a parseable author id and a fresh PR external id, creation
fails with `NotFound` and persists nothing when the author has no team;
otherwise it succeeds, assigning exactly `min 2 (candidate pool size)`
reviewers — zero, one or two is a success — each a distinct active member
of the author's team other than the author. -/
theorem createPR_reviewer_count
    (shuffle : List Int → List Int) (hsh : ∀ l, (shuffle l).Perm l)
    (st : DB) (hwf : st.WF)
    (prE title author : String) (now : Nat) (aID : Int)
    (hparse : parseInt64 author = some aID)
    (hfree : st.pull_requests.any (fun p => p.external_id == prE) = false) :
    ((st.team_users.filter (fun v => v.user_id == aID)).head? = none →
      createPR shuffle st prE title author [] now = (.error .notFound, st)) ∧
    (∀ tu, (st.team_users.filter (fun v => v.user_id == aID)).head? = some tu →
      ∃ revs : List Int,
        createPR shuffle st prE title author [] now =
          (.ok ⟨prE, title, author, StatusOpen, revs.map formatInt64,
                some now, none⟩,
           { st with
              pull_requests := st.pull_requests ++
                [⟨st.next_pr_id, prE, title, aID, StatusOpen, none, now⟩],
              pr_reviewers := st.pr_reviewers ++
                revs.map (fun x => (⟨st.next_pr_id, x⟩ : PRReviewerRow)),
              next_pr_id := st.next_pr_id + 1 }) ∧
        revs.length = min 2 (reviewerCandidates st tu.team_id [aID]).length ∧
        revs.Nodup ∧
        (∀ x ∈ revs, x ≠ aID ∧
          (∃ v ∈ st.team_users, v.team_id = tu.team_id ∧ v.user_id = x) ∧
          (∃ u ∈ st.users, u.id = x ∧ u.is_active))) := by
  constructor
  · intro hnone
    simp [createPR, hparse, hfree, hnone]
  · intro tu hteam
    refine ⟨(shuffle (reviewerCandidates st tu.team_id [aID])).take 2,
      ?_, ?_, ?_, ?_⟩
    · simp [createPR, hparse, hfree, hteam]
    · rw [List.length_take,
        (hsh (reviewerCandidates st tu.team_id [aID])).length_eq]
    · have hcnd : (reviewerCandidates st tu.team_id [aID]).Nodup :=
        reviewerCandidates_nodup hwf tu.team_id [aID]
      exact (List.take_sublist _ _).nodup ((hsh _).symm.nodup hcnd)
    · intro x hx
      have hxc : x ∈ reviewerCandidates st tu.team_id [aID] :=
        ((hsh _).mem_iff).mp (List.mem_of_mem_take hx)
      obtain ⟨hnotex, hteamm, hactive⟩ := mem_reviewerCandidates hxc
      exact ⟨fun hxeq => hnotex (hxeq ▸ List.mem_singleton.mpr rfl),
        hteamm, hactive⟩

/-- Witness for C8: on `dbReassignOk`, the author alice (internal id 1) has
two active teammates, and creating `pr-2` succeeds with reviewers drawn
from that pool. -/
theorem createPR_reviewer_count_witness :
    ∃ revs : List Int,
      createPR id dbReassignOk "pr-2" "Feat" "1" [] 9 =
        (.ok ⟨"pr-2", "Feat", "1", StatusOpen, revs.map formatInt64,
              some 9, none⟩,
         { dbReassignOk with
            pull_requests := dbReassignOk.pull_requests ++
              [⟨dbReassignOk.next_pr_id, "pr-2", "Feat", 1, StatusOpen,
                none, 9⟩],
            pr_reviewers := dbReassignOk.pr_reviewers ++
              revs.map (fun x =>
                (⟨dbReassignOk.next_pr_id, x⟩ : PRReviewerRow)),
            next_pr_id := dbReassignOk.next_pr_id + 1 }) ∧
      revs.length = min 2 (reviewerCandidates dbReassignOk
        (⟨1, 1⟩ : TeamUserRow).team_id [1]).length ∧
      revs.Nodup ∧
      (∀ x ∈ revs, x ≠ 1 ∧
        (∃ v ∈ dbReassignOk.team_users,
          v.team_id = (⟨1, 1⟩ : TeamUserRow).team_id ∧ v.user_id = x) ∧
        (∃ u ∈ dbReassignOk.users, u.id = x ∧ u.is_active)) :=
  (createPR_reviewer_count id (fun l => List.Perm.refl l) dbReassignOk
      (by decide) "pr-2" "Feat" "1" 9 1 (by decide) (by decide)).2
    ⟨1, 1⟩ (by decide)

/-- C10: `UpdateUserStatus` touches only the targeted user's `is_active`
flag and `updated_at` timestamp: teams, team membership, pull requests and
reviewer assignments are untouched — in particular a deactivated user's
existing reviewer assignments stay in place — every user row with a
different external id is unchanged, and the targeted row keeps its id,
external id and name. -/
theorem updateUserStatus_frame (st : DB) (uid : String) (b : Bool) (now : Nat)
    (st' : DB) (h : updateUserStatus st uid b now = .ok st') :
    st'.teams = st.teams ∧
    st'.team_users = st.team_users ∧
    st'.pull_requests = st.pull_requests ∧
    st'.pr_reviewers = st.pr_reviewers ∧
    st'.next_user_id = st.next_user_id ∧
    st'.users.length = st.users.length ∧
    (∀ u ∈ st.users, u.external_id ≠ uid → u ∈ st'.users) ∧
    (∀ u ∈ st.users, u.external_id = uid →
      ({ u with is_active := b, updated_at := now } : UserRow) ∈ st'.users) ∧
    (∀ v ∈ st'.users, v ∈ st.users ∨
      ∃ u ∈ st.users, u.external_id = uid ∧
        v = { u with is_active := b, updated_at := now }) := by
  simp only [updateUserStatus] at h
  split at h
  · have hst := (Except.ok.injEq _ _).mp h
    subst hst
    refine ⟨rfl, rfl, rfl, rfl, rfl, by simp, ?_, ?_, ?_⟩
    · intro u hu hne
      exact List.mem_map.mpr ⟨u, hu, by simp [hne]⟩
    · intro u hu heq
      exact List.mem_map.mpr ⟨u, hu, by simp [heq]⟩
    · intro v hv
      have hv2 : v ∈ st.users.map (fun w =>
        if w.external_id == uid then
          { w with is_active := b, updated_at := now }
        else w) := hv
      obtain ⟨u, hu, hfe⟩ := List.mem_map.mp hv2
      by_cases hc : (u.external_id == uid) = true
      · refine Or.inr ⟨u, hu, beq_iff_eq.mp hc, ?_⟩
        rw [← hfe]
        simp [hc]
      · refine Or.inl ?_
        have hvu : v = u := by
          rw [← hfe]
          simp [hc]
        rw [hvu]
        exact hu
  · exact Except.noConfusion h

/-- Witness for C10: deactivating `u-bob` (a current reviewer of `pr-1`) on
`dbReassignOk` changes only his row; his reviewer assignment survives. -/
theorem updateUserStatus_frame_witness :
    dbStatusAfter.teams = dbReassignOk.teams ∧
    dbStatusAfter.team_users = dbReassignOk.team_users ∧
    dbStatusAfter.pull_requests = dbReassignOk.pull_requests ∧
    dbStatusAfter.pr_reviewers = dbReassignOk.pr_reviewers ∧
    dbStatusAfter.next_user_id = dbReassignOk.next_user_id ∧
    dbStatusAfter.users.length = dbReassignOk.users.length ∧
    (∀ u ∈ dbReassignOk.users, u.external_id ≠ "u-bob" →
      u ∈ dbStatusAfter.users) ∧
    (∀ u ∈ dbReassignOk.users, u.external_id = "u-bob" →
      ({ u with is_active := false, updated_at := 7 } : UserRow) ∈
        dbStatusAfter.users) ∧
    (∀ v ∈ dbStatusAfter.users, v ∈ dbReassignOk.users ∨
      ∃ u ∈ dbReassignOk.users, u.external_id = "u-bob" ∧
        v = { u with is_active := false, updated_at := 7 }) :=
  updateUserStatus_frame dbReassignOk "u-bob" false 7 dbStatusAfter (by decide)

/-- In a key-distinct list, the filter for one key yields exactly the
matching element. -/
theorem filter_key_eq_singleton {α β : Type} [DecidableEq β] (key : α → β)
    (v : β) :
    ∀ l : List α, (l.map key).Nodup → ∀ u ∈ l, key u = v →
      l.filter (fun x => key x == v) = [u] := by
  intro l
  induction l with
  | nil =>
    intro _ u hu
    cases hu
  | cons a l ih =>
    intro hnd u hu hk
    rw [List.map_cons, List.nodup_cons] at hnd
    rcases List.mem_cons.mp hu with rfl | hu
    · rw [List.filter_cons, if_pos (by simp [hk])]
      have hrest : l.filter (fun x => key x == v) = [] := by
        rw [List.eq_nil_iff_forall_not_mem]
        intro x hx
        obtain ⟨hxl, hxc⟩ := List.mem_filter.mp hx
        apply hnd.1
        rw [hk, ← beq_iff_eq.mp hxc]
        exact List.mem_map_of_mem key hxl
      rw [hrest]
    · have hcond : ¬((key a == v) = true) := by
        simp only [beq_iff_eq]
        intro hav
        apply hnd.1
        rw [hav, ← hk]
        exact List.mem_map_of_mem key hu
      rw [List.filter_cons, if_neg hcond]
      exact ih hnd.2 u hu hk

/-- Inductive characterisation of the bulk user upsert: the users table
stays key-distinct with a fresh sequence, the `RETURNING` pairs follow the
roster order, every returned pair points at a row holding exactly that
member's data, and rows whose external id is not in the roster survive
unchanged. -/
theorem upsertUsers_spec (now : Nat) :
    ∀ (ms : List TeamMemberM) (db : DB),
      (ms.map (fun m => m.user_id)).Nodup →
      (db.users.map (fun u => u.id)).Nodup →
      (db.users.map (fun u => u.external_id)).Nodup →
      (∀ u ∈ db.users, u.id < db.next_user_id) →
      ((((upsertUsers now db ms).1).users.map (fun u => u.id)).Nodup ∧
       (((upsertUsers now db ms).1).users.map (fun u => u.external_id)).Nodup ∧
       (∀ u ∈ ((upsertUsers now db ms).1).users,
          u.id < ((upsertUsers now db ms).1).next_user_id) ∧
       ((upsertUsers now db ms).2).map Prod.fst = ms.map (fun m => m.user_id) ∧
       (∀ m ∈ ms, ∀ i, (m.user_id, i) ∈ (upsertUsers now db ms).2 →
          (⟨i, m.user_id, m.username, m.is_active, now⟩ : UserRow) ∈
            ((upsertUsers now db ms).1).users) ∧
       (∀ u ∈ db.users, u.external_id ∉ ms.map (fun m => m.user_id) →
          u ∈ ((upsertUsers now db ms).1).users)) := by
  intro ms
  induction ms with
  | nil =>
    intro db _ hid hext hfresh
    exact ⟨hid, hext, hfresh, rfl, by simp, fun u hu _ => hu⟩
  | cons m ms ih =>
    intro db hnd hid hext hfresh
    rw [List.map_cons, List.nodup_cons] at hnd
    cases hf : db.users.find? (fun u => u.external_id == m.user_id) with
    | some u =>
      have humem : u ∈ db.users := List.mem_of_find?_eq_some hf
      have huext : u.external_id = m.user_id := by
        have hb := List.find?_some hf
        simpa using hb
      simp only [upsertUsers, hf]
      set db1 : DB := { db with users := db.users.map (fun v =>
        if v.external_id == m.user_id then
          { v with name := m.username, is_active := m.is_active, updated_at := now }
        else v) } with hdb1
      have hid1 : (db1.users.map (fun v => v.id)).Nodup := by
        rw [hdb1]
        rw [List.map_map]
        have : ((fun v : UserRow => v.id) ∘ (fun v =>
            if v.external_id == m.user_id then
              { v with name := m.username, is_active := m.is_active, updated_at := now }
            else v)) = fun v : UserRow => v.id := by
          funext v
          by_cases hc : (v.external_id == m.user_id) = true
          · rw [Function.comp_apply, if_pos hc]
          · rw [Function.comp_apply, if_neg hc]
        rw [this]
        exact hid
      have hext1 : (db1.users.map (fun v => v.external_id)).Nodup := by
        rw [hdb1]
        rw [List.map_map]
        have : ((fun v : UserRow => v.external_id) ∘ (fun v =>
            if v.external_id == m.user_id then
              { v with name := m.username, is_active := m.is_active, updated_at := now }
            else v)) = fun v : UserRow => v.external_id := by
          funext v
          by_cases hc : (v.external_id == m.user_id) = true
          · rw [Function.comp_apply, if_pos hc]
          · rw [Function.comp_apply, if_neg hc]
        rw [this]
        exact hext
      have hfresh1 : ∀ v ∈ db1.users, v.id < db1.next_user_id := by
        intro v hv
        obtain ⟨w, hw, hwe⟩ := List.mem_map.mp hv
        have hwid : v.id = w.id := by
          rw [← hwe]
          by_cases hc : (w.external_id == m.user_id) = true
          · rw [if_pos hc]
          · rw [if_neg hc]
        rw [hwid]
        exact hfresh w hw
      obtain ⟨i1, i2, i3, i4, i5, i6⟩ := ih db1 hnd.2 hid1 hext1 hfresh1
      refine ⟨i1, i2, i3, by rw [List.map_cons, List.map_cons, i4], ?_, ?_⟩
      · intro m' hm' i hi
        rcases List.mem_cons.mp hm' with heqm | hm'
        · subst heqm
          rcases List.mem_cons.mp hi with hhead | htail
          · have hieq : i = u.id := (Prod.ext_iff.mp hhead).2
            subst hieq
            have hrow : (⟨u.id, m'.user_id, m'.username, m'.is_active, now⟩ :
                UserRow) ∈ db1.users :=
              List.mem_map.mpr ⟨u, humem, by simp [huext]⟩
            exact i6 _ hrow hnd.1
          · exfalso
            apply hnd.1
            have hmm := List.mem_map_of_mem Prod.fst htail
            rwa [i4] at hmm
        · rcases List.mem_cons.mp hi with hhead | htail
          · exfalso
            apply hnd.1
            have heqf : m'.user_id = m.user_id := (Prod.ext_iff.mp hhead).1
            rw [← heqf]
            exact List.mem_map_of_mem _ hm'
          · exact i5 m' hm' i htail
      · intro v hv hnotin
        have hvne : v.external_id ≠ m.user_id := by
          intro hc
          apply hnotin
          rw [List.map_cons, hc]
          exact List.mem_cons_self _ _
        have hnotin2 : v.external_id ∉ ms.map (fun x => x.user_id) := by
          intro hc
          apply hnotin
          rw [List.map_cons]
          exact List.mem_cons_of_mem _ hc
        have hv1 : v ∈ db1.users :=
          List.mem_map.mpr ⟨v, hv, by simp [hvne]⟩
        exact i6 v hv1 hnotin2
    | none =>
      have hnotext : ∀ w ∈ db.users, w.external_id ≠ m.user_id := by
        intro w hw hc
        have hne := List.find?_eq_none.mp hf w hw
        simp [hc] at hne
      simp only [upsertUsers, hf]
      set db1 : DB := { db with
        users := db.users ++
          [⟨db.next_user_id, m.user_id, m.username, m.is_active, now⟩],
        next_user_id := db.next_user_id + 1 } with hdb1
      have hid1 : (db1.users.map (fun v => v.id)).Nodup := by
        rw [hdb1, List.map_append, List.nodup_append]
        refine ⟨hid, List.nodup_singleton _, ?_⟩
        intro x hx hx2
        obtain ⟨w, hw, hwid⟩ := List.mem_map.mp hx
        have hxeq : x = db.next_user_id := by simpa using hx2
        have := hfresh w hw
        rw [← hwid] at hxeq
        omega
      have hext1 : (db1.users.map (fun v => v.external_id)).Nodup := by
        rw [hdb1, List.map_append, List.nodup_append]
        refine ⟨hext, List.nodup_singleton _, ?_⟩
        intro x hx hx2
        obtain ⟨w, hw, hwe⟩ := List.mem_map.mp hx
        have hxeq : x = m.user_id := by simpa using hx2
        exact hnotext w hw (hwe.trans hxeq)
      have hfresh1 : ∀ v ∈ db1.users, v.id < db1.next_user_id := by
        intro v hv
        rcases List.mem_append.mp hv with hl | hr
        · have := hfresh v hl
          show v.id < db.next_user_id + 1
          omega
        · have hveq := List.mem_singleton.mp hr
          rw [hveq]
          show db.next_user_id < db.next_user_id + 1
          omega
      obtain ⟨i1, i2, i3, i4, i5, i6⟩ := ih db1 hnd.2 hid1 hext1 hfresh1
      refine ⟨i1, i2, i3, by rw [List.map_cons, List.map_cons, i4], ?_, ?_⟩
      · intro m' hm' i hi
        rcases List.mem_cons.mp hm' with heqm | hm'
        · subst heqm
          rcases List.mem_cons.mp hi with hhead | htail
          · have hieq : i = db.next_user_id := (Prod.ext_iff.mp hhead).2
            subst hieq
            have hrow : (⟨db.next_user_id, m'.user_id, m'.username,
                m'.is_active, now⟩ : UserRow) ∈ db1.users :=
              List.mem_append_right _ (List.mem_singleton.mpr rfl)
            exact i6 _ hrow hnd.1
          · exfalso
            apply hnd.1
            have hmm := List.mem_map_of_mem Prod.fst htail
            rwa [i4] at hmm
        · rcases List.mem_cons.mp hi with hhead | htail
          · exfalso
            apply hnd.1
            have heqf : m'.user_id = m.user_id := (Prod.ext_iff.mp hhead).1
            rw [← heqf]
            exact List.mem_map_of_mem _ hm'
          · exact i5 m' hm' i htail
      · intro v hv hnotin
        have hnotin2 : v.external_id ∉ ms.map (fun x => x.user_id) := by
          intro hc
          apply hnotin
          rw [List.map_cons]
          exact List.mem_cons_of_mem _ hc
        exact i6 v (List.mem_append_left _ hv) hnotin2

/-- Evaluation of `getTeam` when the team row is found. -/
theorem getTeam_some (st' : DB) (name : String) (t : TeamRow)
    (hft : st'.teams.find? (fun x => x.name == name) = some t) :
    getTeam st' name = .ok ⟨name,
      (((st'.team_users.filter (fun tu => tu.team_id == t.id)).flatMap
        (fun tu => st'.users.filter (fun u => u.id == tu.user_id))).insertionSort
          (fun a b => a.name ≤ b.name)).map
        (fun u => (⟨u.external_id, u.name, u.is_active⟩ : TeamMemberM))⟩ := by
  simp only [getTeam, hft]

/-- Reading back a freshly copied roster: joining the new membership rows
against a key-distinct users table returns exactly the upserted members, in
roster order. -/
theorem roster_join_eq (now : Nat) (users : List UserRow)
    (idm : List (String × Int)) (teamID : Int)
    (hnd : (users.map (fun u => u.id)).Nodup) :
    ∀ ms : List TeamMemberM,
      (∀ m ∈ ms, ∀ i, (m.user_id, i) ∈ idm →
        (⟨i, m.user_id, m.username, m.is_active, now⟩ : UserRow) ∈ users) →
      (∀ m ∈ ms, m.user_id ∈ idm.map Prod.fst) →
      ((ms.filterMap (fun m => (idm.find? (fun q => q.1 == m.user_id)).map
          (fun q => (⟨teamID, q.2⟩ : TeamUserRow)))).flatMap
        (fun tu => users.filter (fun u => u.id == tu.user_id))).map
          (fun u => (⟨u.external_id, u.name, u.is_active⟩ : TeamMemberM)) =
        ms := by
  intro ms
  induction ms with
  | nil =>
    intro _ _
    rfl
  | cons m ms ih =>
    intro h1 h2
    have hin : m.user_id ∈ idm.map Prod.fst := h2 m (List.mem_cons_self _ _)
    have hne : idm.find? (fun q => q.1 == m.user_id) ≠ none := by
      rw [Ne, List.find?_eq_none]
      push_neg
      obtain ⟨q, hq, hqe⟩ := List.mem_map.mp hin
      exact ⟨q, hq, by simp [hqe]⟩
    obtain ⟨q, hq⟩ := Option.ne_none_iff_exists'.mp hne
    have hq1 : q.1 = m.user_id := by
      have hb := List.find?_some hq
      simpa using hb
    have hqmem : q ∈ idm := List.mem_of_find?_eq_some hq
    have hpair : (m.user_id, q.2) ∈ idm := by
      rw [← hq1]
      exact hqmem
    have hrow : (⟨q.2, m.user_id, m.username, m.is_active, now⟩ : UserRow) ∈
        users := h1 m (List.mem_cons_self _ _) q.2 hpair
    have hfilter : users.filter (fun u => u.id == q.2) =
        [⟨q.2, m.user_id, m.username, m.is_active, now⟩] :=
      filter_key_eq_singleton (fun u => u.id) q.2 users hnd _ hrow rfl
    have hfm : (idm.find? (fun p => p.1 == m.user_id)).map
        (fun p => (⟨teamID, p.2⟩ : TeamUserRow)) = some ⟨teamID, q.2⟩ := by
      rw [hq]
      rfl
    rw [List.filterMap_cons]
    rw [hfm]
    rw [List.flatMap_cons, List.map_append]
    dsimp only
    rw [hfilter]
    rw [List.map_singleton]
    have hih := ih (fun m' hm' => h1 m' (List.mem_cons_of_mem _ hm'))
      (fun m' hm' => h2 m' (List.mem_cons_of_mem _ hm'))
    rw [hih]
    rfl

/-- After the membership rows of `teamID` are replaced by pairs built from
the upsert's `RETURNING` map, reading the team back yields exactly the new
roster, up to the name ordering of the final `ORDER BY`. -/
theorem getTeam_after_replace (td : TeamM) (now : Nat) (B : DB)
    (teamID : Int) (idm : List (String × Int)) (told : List TeamUserRow)
    (t : TeamRow) (htid : t.id = teamID)
    (hfind : B.teams.find? (fun x => x.name == td.team_name) = some t)
    (hTU : B.team_users = (told.filter (fun v => !(v.team_id == teamID))) ++
      td.members.filterMap (fun m =>
        (idm.find? (fun q => q.1 == m.user_id)).map
          (fun q => (⟨teamID, q.2⟩ : TeamUserRow))))
    (hndusers : (B.users.map (fun u => u.id)).Nodup)
    (h5 : ∀ m ∈ td.members, ∀ i, (m.user_id, i) ∈ idm →
      (⟨i, m.user_id, m.username, m.is_active, now⟩ : UserRow) ∈ B.users)
    (h4 : idm.map Prod.fst = td.members.map (fun m => m.user_id)) :
    ∃ mem, getTeam B td.team_name = .ok ⟨td.team_name, mem⟩ ∧
      mem.Perm td.members := by
  refine ⟨_, getTeam_some B td.team_name t hfind, ?_⟩
  rw [hTU, List.filter_append]
  have h0 : ((told.filter (fun v => !(v.team_id == teamID))).filter
      (fun tu => tu.team_id == t.id)) = [] := by
    rw [List.filter_filter]
    refine (List.filter_congr ?_).trans (List.filter_false _)
    intro x _
    rw [htid]
    cases hx : (x.team_id == teamID) <;> simp [hx]
  have h1 : ((td.members.filterMap (fun m =>
      (idm.find? (fun q => q.1 == m.user_id)).map
        (fun q => (⟨teamID, q.2⟩ : TeamUserRow)))).filter
      (fun tu => tu.team_id == t.id)) =
      td.members.filterMap (fun m =>
        (idm.find? (fun q => q.1 == m.user_id)).map
          (fun q => (⟨teamID, q.2⟩ : TeamUserRow))) := by
    rw [List.filter_eq_self]
    intro a ha
    obtain ⟨m, hm, hfm⟩ := List.mem_filterMap.mp ha
    obtain ⟨qq, hqq, hqe⟩ := Option.map_eq_some'.mp hfm
    rw [← hqe, htid]
    simp
  rw [h0, h1, List.nil_append]
  have h2 : ∀ m ∈ td.members, m.user_id ∈ idm.map Prod.fst := by
    intro m hm
    rw [h4]
    exact List.mem_map_of_mem _ hm
  have hJ := roster_join_eq now B.users idm teamID hndusers td.members h5 h2
  have hperm := (List.perm_insertionSort
    (fun a b : UserRow => a.name ≤ b.name)
    ((td.members.filterMap (fun m =>
      (idm.find? (fun q => q.1 == m.user_id)).map
        (fun q => (⟨teamID, q.2⟩ : TeamUserRow)))).flatMap
      (fun tu => B.users.filter (fun u => u.id == tu.user_id)))).map
    (fun u => (⟨u.external_id, u.name, u.is_active⟩ : TeamMemberM))
  rw [hJ] at hperm
  exact hperm

/-- C9: `CreateTeam(name, members)` with a duplicate-free roster atomically
replaces the team's roster — each listed user is inserted or updated by
external id, the old membership rows are dropped and replaced by exactly
the given list — and it returns the input roster; a subsequent
`GetTeam(name)` returns exactly the given members (as a permutation: the
read orders by user name). -/
theorem createTeam_replaces_roster (st : DB) (hwf : st.WF) (td : TeamM)
    (now : Nat) (hnd : (td.members.map (fun m => m.user_id)).Nodup) :
    ∃ st', createTeam st td now = (.ok td, st') ∧
      ∃ mem, getTeam st' td.team_name = .ok ⟨td.team_name, mem⟩ ∧
        mem.Perm td.members := by
  obtain ⟨huid, huext, _, _, _, _, _, _, hufresh, _, _, _⟩ := hwf
  cases hft : st.teams.find? (fun x => x.name == td.team_name) with
  | some t =>
    obtain ⟨i1, i2, i3, i4, i5, i6⟩ :=
      upsertUsers_spec now td.members st hnd huid huext hufresh
    have hcreate : createTeam st td now = (.ok td,
        { (upsertUsers now st td.members).1 with
            team_users :=
              (((upsertUsers now st td.members).1).team_users.filter
                (fun v => !(v.team_id == t.id))) ++
              td.members.filterMap (fun m =>
                (((upsertUsers now st td.members).2).find?
                  (fun q => q.1 == m.user_id)).map
                  (fun q => (⟨t.id, q.2⟩ : TeamUserRow))) }) := by
      simp only [createTeam, hft]
      rw [if_pos hnd]
    refine ⟨_, hcreate, ?_⟩
    have hfr := (upsertUsers_frame now td.members st).1
    have hfindB : ((upsertUsers now st td.members).1).teams.find?
        (fun x => x.name == td.team_name) = some t := by
      rw [hfr]
      exact hft
    exact getTeam_after_replace td now _ t.id
      ((upsertUsers now st td.members).2)
      ((upsertUsers now st td.members).1).team_users t rfl hfindB rfl
      i1 i5 i4
  | none =>
    obtain ⟨i1, i2, i3, i4, i5, i6⟩ :=
      upsertUsers_spec now td.members
        { st with teams := st.teams ++ [⟨st.next_team_id, td.team_name⟩], next_team_id := st.next_team_id + 1 }
        hnd huid huext hufresh
    have hcreate : createTeam st td now = (.ok td,
        { (upsertUsers now
            { st with teams := st.teams ++ [⟨st.next_team_id, td.team_name⟩], next_team_id := st.next_team_id + 1 }
            td.members).1 with
            team_users :=
              (((upsertUsers now
                { st with teams := st.teams ++ [⟨st.next_team_id, td.team_name⟩], next_team_id := st.next_team_id + 1 }
                td.members).1).team_users.filter
                  (fun v => !(v.team_id == st.next_team_id))) ++
              td.members.filterMap (fun m =>
                (((upsertUsers now
                  { st with teams := st.teams ++ [⟨st.next_team_id, td.team_name⟩], next_team_id := st.next_team_id + 1 }
                  td.members).2).find?
                  (fun q => q.1 == m.user_id)).map
                  (fun q => (⟨st.next_team_id, q.2⟩ : TeamUserRow))) }) := by
      simp only [createTeam, hft]
      rw [if_pos hnd]
    refine ⟨_, hcreate, ?_⟩
    have hfr := (upsertUsers_frame now td.members
      { st with teams := st.teams ++ [⟨st.next_team_id, td.team_name⟩], next_team_id := st.next_team_id + 1 }).1
    have hfindB : ((upsertUsers now
        { st with teams := st.teams ++ [⟨st.next_team_id, td.team_name⟩], next_team_id := st.next_team_id + 1 }
        td.members).1).teams.find? (fun x => x.name == td.team_name) =
        some ⟨st.next_team_id, td.team_name⟩ := by
      rw [hfr]
      show (st.teams ++ [(⟨st.next_team_id, td.team_name⟩ : TeamRow)]).find?
        (fun x => x.name == td.team_name) = some ⟨st.next_team_id, td.team_name⟩
      rw [List.find?_append, hft]
      simp
    exact getTeam_after_replace td now _ st.next_team_id
      ((upsertUsers now
        { st with teams := st.teams ++ [⟨st.next_team_id, td.team_name⟩], next_team_id := st.next_team_id + 1 }
        td.members).2)
      ((upsertUsers now
        { st with teams := st.teams ++ [⟨st.next_team_id, td.team_name⟩], next_team_id := st.next_team_id + 1 }
        td.members).1).team_users
      ⟨st.next_team_id, td.team_name⟩ rfl hfindB rfl i1 i5 i4

/-- Witness for C9: upserting team `infra` with alice and bob on an empty
database succeeds, and reading it back returns exactly those two members. -/
theorem createTeam_replaces_roster_witness :
    ∃ st', createTeam dbEmpty
        ⟨"infra", [⟨"u-alice", "Alice", true⟩, ⟨"u-bob", "Bob", true⟩]⟩ 3 =
      (.ok ⟨"infra", [⟨"u-alice", "Alice", true⟩, ⟨"u-bob", "Bob", true⟩]⟩,
        st') ∧
      ∃ mem, getTeam st' "infra" = .ok ⟨"infra", mem⟩ ∧
        mem.Perm [⟨"u-alice", "Alice", true⟩, ⟨"u-bob", "Bob", true⟩] :=
  createTeam_replaces_roster dbEmpty (by decide)
    ⟨"infra", [⟨"u-alice", "Alice", true⟩, ⟨"u-bob", "Bob", true⟩]⟩ 3
    (by decide)
